import Mathlib

/-!
Shallow embedding of the Mediguide frontend's status-polling loop
(`src/components/screens/ScanningScreen.tsx`, function `pollStatus`) and of
the session/navigation state manager (`AppContext.tsx`, `AppProvider`).

The poll loop is modelled as a step function on "ticks": one tick records
the wall-clock elapsed time observed at the entry of one `pollStatus`
invocation, the result the in-flight `getReportStatus` query resolves with,
and the value of the `isMounted` flag at the three points where the source
reads it (at function entry, after the `await` resolves, and inside the
500 ms delayed navigation callback).  The observable effects of one
invocation are collected as a list of events (query issued, `setProgress`,
`setCurrentScreen` navigation, toast), and the returned `Option Nat` is the
delay of the `setTimeout(pollStatus, …)` call the invocation schedules, if
any.  JavaScript numbers are IEEE binary64 doubles; the progress
computation `Math.floor((elapsed / 20000) * 90)` is modelled exactly by
representing each intermediate double as an exact rational and rounding
the division and the multiplication to 53 significant bits with
round-half-to-even (`roundDouble` below), with `elapsed` itself an exact
integer (a millisecond count, far below 2^53).  The rounding model is
written with `mkRat`, numerator/denominator projections and integer
arithmetic only, so that concrete inputs evaluate inside the kernel;
bridge lemmas identify these operations with the field operations on `ℚ`.
-/

namespace Mediguide

/-- The `Screen` union type of `AppContext.tsx`. -/
inductive Screen where
  | splash
  | onboarding
  | login
  | signup
  | profileSetup
  | home
  | history
  | scan
  | scanning
  | scanError
  | reportResult
  | family
  | addFamily
  | nicknamePopup
  | profile
  | reportExplanation
deriving DecidableEq

/-- The `Tab` union type of `AppContext.tsx`. -/
inductive Tab where
  | home
  | history
  | scan
  | family
  | profile
deriving DecidableEq

/-- Resolution of one `getReportStatus` query: either a parsed status
object (`status` string plus optional `error_message`), or a rejection
carrying the optional HTTP `status` attached by `apiFetch` in
`src/lib/api.ts` (a plain network failure carries none). -/
inductive QueryResult where
  | ok (status : String) (errorMessage : Option String)
  | err (httpStatus : Option Nat)
deriving DecidableEq

/-- Observable effects of the poll loop: a `getReportStatus` query being
issued, a `setProgress` call, a `setCurrentScreen` navigation, and a toast. -/
inductive PollEvent where
  | query
  | setProgress (p : Nat)
  | navigate (s : Screen)
  | toast (msg : String)
deriving DecidableEq

/-- One invocation of `pollStatus`: the elapsed milliseconds
`Date.now() - startTimeRef.current` computed at entry, the result the query
would resolve with, and the `isMounted` flag as read at entry, at query
resolution, and inside the 500 ms delayed `setCurrentScreen` callback. -/
structure Tick where
  elapsed : Nat
  mountedAtEntry : Bool
  result : QueryResult
  mountedAtResponse : Bool
  mountedAtDelayed : Bool
deriving DecidableEq

/-- The 60 000 ms polling ceiling of `ScanningScreen`. -/
def timeoutMs : Nat := 60000

/-- The fixed 2 000 ms poll interval of `ScanningScreen`. -/
def pollIntervalMs : Nat := 2000

/-- Toast shown by the timeout branch. -/
def timeoutToast : String := "Analysis timed out. Please try again."

/-- Toast shown by the fatal (404/400) catch branch. -/
def fatalToast : String := "Analysis failed: Report not found or invalid."

/-- Fallback toast of the `failed` branch when the server supplies no
`error_message`. -/
def defaultFailedToast : String := "Report processing failed. Please try again."

/-- `status.toLowerCase()` on the ASCII status strings the backend sends,
modelled characterwise. -/
def jsToLower (s : String) : String := ⟨s.data.map Char.toLower⟩

/-- Computable `x / 2` on `ℚ`. -/
def half (x : ℚ) : ℚ := mkRat x.num (x.den * 2)

/-- Computable `x * 2` on `ℚ`. -/
def double (x : ℚ) : ℚ := mkRat (x.num * 2) x.den

/-- Computable `x * 2 ^ k` on `ℚ` for an integer `k`. -/
def mulPow2 (x : ℚ) (k : ℤ) : ℚ :=
  if 0 ≤ k then mkRat (x.num * 2 ^ k.toNat) x.den
  else mkRat x.num (x.den * 2 ^ (-k).toNat)

/-- Round-half-to-even of a rational to an integer, computably:
`s.num - ⌊s⌋ * s.den` is the numerator of the fractional part over the
denominator `s.den`. -/
def roundHalfEven (s : ℚ) : ℤ :=
  if 2 * (s.num - ⌊s⌋ * s.den) < (s.den : ℤ) then ⌊s⌋
  else if (s.den : ℤ) < 2 * (s.num - ⌊s⌋ * s.den) then ⌊s⌋ + 1
  else if ⌊s⌋ % 2 = 0 then ⌊s⌋ else ⌊s⌋ + 1

/-- Halvings until below 2: `⌊log₂ x⌋` for `1 ≤ x` given enough fuel. -/
def findExpUp : Nat → ℚ → Nat
  | 0, _ => 0
  | fuel + 1, x => if x < 2 then 0 else findExpUp fuel (half x) + 1

/-- Doublings until reaching 1: `-⌊log₂ x⌋` for `0 < x < 1` given enough
fuel. -/
def findExpDown : Nat → ℚ → Nat
  | 0, _ => 0
  | fuel + 1, x => if 1 ≤ x then 0 else findExpDown fuel (double x) + 1

/-- Floor of the base-2 logarithm of a positive rational. -/
def log2floor (x : ℚ) : ℤ :=
  if 1 ≤ x then (findExpUp (x.num.natAbs + x.den) x : ℤ)
  else -(findExpDown (x.num.natAbs + x.den) x : ℤ)

/-- Round a nonnegative rational to the nearest IEEE binary64 double
(53-bit significand, round half to even), as an exact rational. -/
def roundDouble (x : ℚ) : ℚ :=
  if x ≤ 0 then 0
  else mulPow2 ((roundHalfEven (mulPow2 x (52 - log2floor x)) : ℤ) : ℚ)
    (log2floor x - 52)

/-- Computable `elapsed / 20000` on `ℚ`. -/
def divBy20000 (elapsed : ℕ) : ℚ := mkRat (elapsed : ℤ) 20000

/-- Computable `x * 90` on `ℚ`. -/
def mul90 (x : ℚ) : ℚ := mkRat (x.num * 90) x.den

/-- The progress formula
`Math.max(Math.min(Math.floor((elapsed / 20000) * 90), 90), 10)` from the
`processing` branch, with the division and the multiplication each
correctly rounded to the nearest IEEE double. -/
def estimatedProgress (elapsed : Nat) : Nat :=
  max (min (Int.toNat ⌊roundDouble (mul90 (roundDouble (divBy20000 elapsed)))⌋) 90) 10

/-- One invocation of `pollStatus` (ScanningScreen.tsx lines 39–109),
branch by branch:
entry `isMounted` guard; timeout check before the query; on resolution the
post-`await` `isMounted` guard, then the `processing` / `completed` /
`failed` / unknown-status branches; on rejection the fatal 404/400 branch
(which, as in the source, performs its toast and navigation without an
`isMounted` guard) and the guarded transient retry.  Returns the emitted
events and the delay of the scheduled next poll, if one is scheduled. -/
def pollStep (t : Tick) : List PollEvent × Option Nat :=
  if t.mountedAtEntry = false then ([], none)
  else if timeoutMs < t.elapsed then
    ([.toast timeoutToast, .navigate .scanError], none)
  else
    match t.result with
    | .ok st em =>
      if t.mountedAtResponse = false then ([.query], none)
      else if jsToLower st = "processing" then
        ([.query, .setProgress (estimatedProgress t.elapsed)], some pollIntervalMs)
      else if jsToLower st = "completed" then
        ([.query, .setProgress 100] ++
          (if t.mountedAtDelayed then [.navigate .reportResult] else []), none)
      else if jsToLower st = "failed" then
        ([.query, .toast (em.getD defaultFailedToast)] ++
          (if t.mountedAtDelayed then [.navigate .scanError] else []), none)
      else ([.query], some pollIntervalMs)
    | .err hs =>
      if hs = some 404 ∨ hs = some 400 then
        ([.query, .toast fatalToast, .navigate .scanError], none)
      else if t.mountedAtResponse then ([.query], some pollIntervalMs)
      else ([.query], none)

/-- The whole poll loop: run `pollStatus` on successive ticks for as long
as each invocation schedules a next poll, concatenating the emitted
events. -/
def runPoll : List Tick → List PollEvent
  | [] => []
  | t :: ts => (pollStep t).1 ++ (if (pollStep t).2.isSome then runPoll ts else [])

/-- A terminal notification: navigation to one of the two terminal screens
the loop can reach (`report-result` or `scan-error`). -/
def isTerminalNav : PollEvent → Bool
  | .navigate .reportResult => true
  | .navigate .scanError => true
  | _ => false

/-- Does the event record a `getReportStatus` query being issued? -/
def isQuery : PollEvent → Bool
  | .query => true
  | _ => false

/-- Number of terminal notifications in a trace. -/
def countTerminal (evs : List PollEvent) : Nat := (evs.filter isTerminalNav).length

/-- Number of queries issued in a trace. -/
def countQueries (evs : List PollEvent) : Nat := (evs.filter isQuery).length

/-- `true` iff no event at all follows a terminal notification in the
trace. -/
def noEventAfterTerminal : List PollEvent → Bool
  | [] => true
  | e :: es => if isTerminalNav e then es.isEmpty else noEventAfterTerminal es

/-- The values passed to `setProgress` along a trace, in order. -/
def progressValues : List PollEvent → List Nat
  | [] => []
  | .setProgress p :: es => p :: progressValues es
  | .query :: es => progressValues es
  | .navigate _ :: es => progressValues es
  | .toast _ :: es => progressValues es

/-- A tick on which the component stays mounted throughout (no
cancellation). -/
def fullyMounted (t : Tick) : Bool :=
  t.mountedAtEntry && t.mountedAtResponse && t.mountedAtDelayed

/-- Successive invocations of `pollStatus` observe elapsed times that grow
by at least the poll interval: each next poll is scheduled with
`setTimeout(pollStatus, 2000)`, so real executions satisfy this. -/
def elapsedGrows : List Tick → Bool
  | [] => true
  | [_] => true
  | a :: b :: ts => (decide (a.elapsed + pollIntervalMs ≤ b.elapsed)) && elapsedGrows (b :: ts)

/-- Successive invocations observe non-decreasing elapsed times
(`Date.now()` is monotone along one mounted effect). -/
def elapsedMono : List Tick → Bool
  | [] => true
  | [_] => true
  | a :: b :: ts => (decide (a.elapsed ≤ b.elapsed)) && elapsedMono (b :: ts)

/-- A list of naturals is non-decreasing. -/
def nonDecreasing : List Nat → Bool
  | [] => true
  | [_] => true
  | a :: b :: ts => (decide (a ≤ b)) && nonDecreasing (b :: ts)

/-!
Session/navigation state manager (`AppContext.tsx`, `AppProvider`).
`localStorage` is modelled as the pair of the two keys the provider reads
and writes (`mediguide_current_screen`, `mediguide_active_tab`), each
`none` when absent.
-/

/-- The four screens `initializeAuth` and the `SIGNED_IN` handler refuse to
restore onto (`splash`, `onboarding`, `login`, `signup`). -/
def isAuthOnlyScreen : Screen → Bool
  | .splash => true
  | .onboarding => true
  | .login => true
  | .signup => true
  | _ => false

/-- The durable keys `mediguide_current_screen` and
`mediguide_active_tab`. -/
structure LocalStorage where
  savedScreen : Option Screen
  savedTab : Option Tab
deriving DecidableEq

/-- The part of `AppProvider`'s state the session manager drives. -/
structure AppState where
  isLoggedIn : Bool
  currentScreen : Screen
  activeTab : Tab
deriving DecidableEq

/-- `initializeAuth` (AppContext.tsx lines 175–208): `hasValidSession`
stands for `session && supabaseUser` being truthy; the `catch` path of the
source coincides with the no-session path.  Restores the saved screen (and,
when present, the saved tab) unless the saved screen is absent or
auth-only, in which case the screen becomes `home`; without a session the
screen becomes `onboarding`. -/
def initializeAuth (hasValidSession : Bool) (st : LocalStorage) (s0 : AppState) : AppState :=
  if hasValidSession then
    match st.savedScreen with
    | some sc =>
      if sc ≠ .splash ∧ sc ≠ .onboarding ∧ sc ≠ .login ∧ sc ≠ .signup then
        { s0 with isLoggedIn := true, currentScreen := sc,
                  activeTab := st.savedTab.getD s0.activeTab }
      else { s0 with isLoggedIn := true, currentScreen := .home }
    | none => { s0 with isLoggedIn := true, currentScreen := .home }
  else
    { s0 with isLoggedIn := false, currentScreen := .onboarding }

/-- The `SIGNED_OUT` branch of the `onAuthStateChange` handler
(AppContext.tsx lines 237–244): reset login flag, screen and tab, and
remove both durable keys. -/
def handleSignedOut (s : AppState) (st : LocalStorage) : AppState × LocalStorage :=
  ({ s with isLoggedIn := false, currentScreen := .onboarding, activeTab := .home },
   { st with savedScreen := none, savedTab := none })

/-- The persistence effect (AppContext.tsx lines 257–264): write the
current screen only when logged in and the screen is not auth-only; write
the current tab whenever logged in (`activeTab` is always a non-empty
string, so the source's `activeTab &&` guard is always true). -/
def persistState (s : AppState) (st : LocalStorage) : LocalStorage :=
  let st1 :=
    if s.isLoggedIn = true ∧ s.currentScreen ≠ .splash ∧ s.currentScreen ≠ .onboarding ∧
        s.currentScreen ≠ .login ∧ s.currentScreen ≠ .signup then
      { st with savedScreen := some s.currentScreen }
    else st
  if s.isLoggedIn = true then { st1 with savedTab := some s.activeTab } else st1

/-! Lemmas about the IEEE rounding model. -/

lemma num_eq_mul_den (x : ℚ) : (x.num : ℚ) = x * (x.den : ℚ) := by
  have hd : ((x.den : ℚ)) ≠ 0 := by
    exact_mod_cast x.den_pos.ne'
  exact (div_eq_iff hd).1 (Rat.num_div_den x)

lemma mkRat_num_mul (x : ℚ) (a : ℤ) : mkRat (x.num * a) x.den = x * (a : ℚ) := by
  have hd : ((x.den : ℚ)) ≠ 0 := by
    exact_mod_cast x.den_pos.ne'
  rw [Rat.mkRat_eq_div]
  push_cast
  rw [div_eq_iff hd, num_eq_mul_den]
  ring

lemma mkRat_den_mul (x : ℚ) (a : ℕ) (ha : a ≠ 0) :
    mkRat x.num (x.den * a) = x / (a : ℚ) := by
  have hd : ((x.den : ℚ)) ≠ 0 := by
    exact_mod_cast x.den_pos.ne'
  have ha' : ((a : ℚ)) ≠ 0 := by
    exact_mod_cast ha
  rw [Rat.mkRat_eq_div]
  push_cast
  rw [div_eq_div_iff (mul_ne_zero hd ha') ha', num_eq_mul_den]
  ring

lemma int_pow2_cast (n : ℕ) : (((2:ℤ) ^ n : ℤ) : ℚ) = (2:ℚ) ^ (n : ℤ) := by
  rw [zpow_natCast]
  push_cast
  ring

/-- `x / 2`, computably. -/

lemma half_eq (x : ℚ) : half x = x / 2 := by
  unfold half
  rw [mkRat_den_mul x 2 (by norm_num)]
  norm_num

lemma double_eq (x : ℚ) : double x = x * 2 := by
  unfold double
  rw [mkRat_num_mul]
  norm_num

lemma mulPow2_eq (x : ℚ) (k : ℤ) : mulPow2 x k = x * (2:ℚ) ^ k := by
  unfold mulPow2
  split_ifs with h
  · rw [mkRat_num_mul, int_pow2_cast]
    congr 2
    omega
  · push_neg at h
    have hpow : ((2:ℕ) ^ (-k).toNat) ≠ 0 := (Nat.pow_pos (by norm_num : 0 < 2)).ne'
    rw [mkRat_den_mul x _ hpow]
    have hc : (((2:ℕ) ^ (-k).toNat : ℕ) : ℚ) = (2:ℚ) ^ (((-k).toNat : ℕ) : ℤ) := by
      push_cast
      rw [zpow_natCast]
    rw [hc, div_eq_mul_inv, ← zpow_neg]
    congr 2
    omega

/-- Round-half-to-even of a rational to an integer, computably: `r` is the
numerator of the fractional part over the denominator `s.den`. -/

lemma rhe_cond1 (s : ℚ) :
    2 * (s.num - ⌊s⌋ * s.den) < (s.den : ℤ) ↔ s - ⌊s⌋ < 1/2 := by
  have hd : (0:ℚ) < (s.den : ℚ) := by
    exact_mod_cast s.den_pos
  have hnum := num_eq_mul_den s
  constructor
  · intro h
    have hq : (2:ℚ) * ((s.num : ℚ) - (⌊s⌋ : ℚ) * (s.den : ℚ)) < (s.den : ℚ) := by
      exact_mod_cast h
    rw [hnum] at hq
    nlinarith
  · intro h
    have hq : (2:ℚ) * ((s.num : ℚ) - (⌊s⌋ : ℚ) * (s.den : ℚ)) < (s.den : ℚ) := by
      rw [hnum]
      nlinarith
    exact_mod_cast hq

lemma rhe_cond2 (s : ℚ) :
    (s.den : ℤ) < 2 * (s.num - ⌊s⌋ * s.den) ↔ 1/2 < s - ⌊s⌋ := by
  have hd : (0:ℚ) < (s.den : ℚ) := by
    exact_mod_cast s.den_pos
  have hnum := num_eq_mul_den s
  constructor
  · intro h
    have hq : (s.den : ℚ) < (2:ℚ) * ((s.num : ℚ) - (⌊s⌋ : ℚ) * (s.den : ℚ)) := by
      exact_mod_cast h
    rw [hnum] at hq
    nlinarith
  · intro h
    have hq : (s.den : ℚ) < (2:ℚ) * ((s.num : ℚ) - (⌊s⌋ : ℚ) * (s.den : ℚ)) := by
      rw [hnum]
      nlinarith
    exact_mod_cast hq

lemma roundHalfEven_eq (s : ℚ) :
    roundHalfEven s =
      if s - ⌊s⌋ < 1/2 then ⌊s⌋
      else if 1/2 < s - ⌊s⌋ then ⌊s⌋ + 1
      else if ⌊s⌋ % 2 = 0 then ⌊s⌋ else ⌊s⌋ + 1 := by
  unfold roundHalfEven
  simp only [rhe_cond1, rhe_cond2]

lemma roundHalfEven_ge_floor (s : ℚ) : ⌊s⌋ ≤ roundHalfEven s := by
  rw [roundHalfEven_eq]
  split_ifs
  all_goals omega

lemma roundHalfEven_le_floor_add_one (s : ℚ) : roundHalfEven s ≤ ⌊s⌋ + 1 := by
  rw [roundHalfEven_eq]
  split_ifs
  all_goals omega

lemma roundHalfEven_intCast (n : ℤ) : roundHalfEven (n : ℚ) = n := by
  rw [roundHalfEven_eq, Int.floor_intCast]
  norm_num

lemma roundHalfEven_mono {s t : ℚ} (h : s ≤ t) : roundHalfEven s ≤ roundHalfEven t := by
  have hf : ⌊s⌋ ≤ ⌊t⌋ := Int.floor_mono h
  rcases eq_or_lt_of_le hf with he | hl
  · have hst : s - (⌊s⌋ : ℚ) ≤ t - (⌊s⌋ : ℚ) := by linarith
    rw [roundHalfEven_eq, roundHalfEven_eq, ← he]
    split_ifs
    all_goals first
      | omega
      | linarith
  · have h1 := roundHalfEven_le_floor_add_one s
    have h2 := roundHalfEven_ge_floor t
    omega

lemma roundHalfEven_le_of_le_int {s : ℚ} {m : ℤ} (h : s ≤ (m : ℚ)) :
    roundHalfEven s ≤ m := by
  calc roundHalfEven s ≤ roundHalfEven (m : ℚ) := roundHalfEven_mono h
    _ = m := roundHalfEven_intCast m

lemma roundHalfEven_ge_of_int_le {m : ℤ} {s : ℚ} (h : (m : ℚ) ≤ s) :
    m ≤ roundHalfEven s := by
  calc m = roundHalfEven (m : ℚ) := (roundHalfEven_intCast m).symm
    _ ≤ roundHalfEven s := roundHalfEven_mono h

/-- Halvings until below 2: `⌊log₂ x⌋` for `1 ≤ x` given enough fuel. -/

lemma findExpUp_spec : ∀ (fuel : ℕ) (x : ℚ), 1 ≤ x → x < 2 ^ (fuel + 1) →
    (2 : ℚ) ^ findExpUp fuel x ≤ x ∧ x < 2 ^ (findExpUp fuel x + 1) := by
  intro fuel
  induction fuel with
  | zero =>
    intro x hx1 hx2
    simp only [findExpUp]
    exact ⟨by simpa using hx1, by simpa using hx2⟩
  | succ fuel ih =>
    intro x hx1 hx2
    by_cases hx : x < 2
    · simp only [findExpUp, if_pos hx]
      exact ⟨by simpa using hx1, by simpa using hx⟩
    · push_neg at hx
      have hx1' : 1 ≤ x / 2 := by linarith
      have hx2' : x / 2 < 2 ^ (fuel + 1) := by
        rw [div_lt_iff₀ (by norm_num : (0:ℚ) < 2)]
        calc x < 2 ^ (fuel + 1 + 1) := hx2
          _ = 2 ^ (fuel + 1) * 2 := by ring
      obtain ⟨h1, h2⟩ := ih (x / 2) hx1' hx2'
      rw [le_div_iff₀ (by norm_num : (0:ℚ) < 2)] at h1
      rw [div_lt_iff₀ (by norm_num : (0:ℚ) < 2)] at h2
      simp only [findExpUp, if_neg (not_lt.2 hx), half_eq]
      constructor
      · calc (2:ℚ) ^ (findExpUp fuel (x / 2) + 1)
            = 2 ^ findExpUp fuel (x / 2) * 2 := by ring
          _ ≤ x := h1
      · calc x < 2 ^ (findExpUp fuel (x / 2) + 1) * 2 := h2
          _ = 2 ^ (findExpUp fuel (x / 2) + 1 + 1) := by ring

lemma findExpDown_eq_zero {fuel : ℕ} {x : ℚ} (h : 1 ≤ x) : findExpDown fuel x = 0 := by
  cases fuel with
  | zero => rfl
  | succ fuel => simp [findExpDown, h]

lemma findExpDown_spec : ∀ (fuel : ℕ) (x : ℚ), 0 < x → 1 ≤ x * 2 ^ fuel →
    1 ≤ x * 2 ^ findExpDown fuel x ∧ (x < 1 → x * 2 ^ findExpDown fuel x < 2) := by
  intro fuel
  induction fuel with
  | zero =>
    intro x hx h1
    simp only [pow_zero, mul_one] at h1
    simp only [findExpDown, pow_zero, mul_one]
    exact ⟨h1, fun hlt => absurd h1 (by linarith)⟩
  | succ fuel ih =>
    intro x hx h1
    by_cases hge : 1 ≤ x
    · simp only [findExpDown, if_pos hge, pow_zero, mul_one]
      exact ⟨hge, fun hlt => absurd hge (not_le.2 hlt)⟩
    · push_neg at hge
      simp only [findExpDown, if_neg (not_le.2 hge), double_eq]
      by_cases h2x : 1 ≤ x * 2
      · rw [findExpDown_eq_zero h2x]
        constructor
        · simpa [pow_one] using h2x
        · intro _
          have hx2 : x * 2 < 2 := by linarith
          simpa [pow_one] using hx2
      · push_neg at h2x
        have h1' : 1 ≤ (x * 2) * 2 ^ fuel := by
          calc (1:ℚ) ≤ x * 2 ^ (fuel + 1) := h1
            _ = (x * 2) * 2 ^ fuel := by ring
        obtain ⟨ha, hb⟩ := ih (x * 2) (by positivity) h1'
        constructor
        · calc (1:ℚ) ≤ (x * 2) * 2 ^ findExpDown fuel (x * 2) := ha
            _ = x * 2 ^ (findExpDown fuel (x * 2) + 1) := by ring
        · intro _
          have hc := hb h2x
          calc x * 2 ^ (findExpDown fuel (x * 2) + 1)
              = (x * 2) * 2 ^ findExpDown fuel (x * 2) := by ring
            _ < 2 := hc

lemma rat_le_natAbs_num {x : ℚ} (hx : 1 ≤ x) : x ≤ ((x.num.natAbs : ℕ) : ℚ) := by
  have hx0 : 0 < x := by linarith
  have hnum : 0 < x.num := Rat.num_pos.2 hx0
  have hcast : ((x.num.natAbs : ℕ) : ℚ) = (x.num : ℚ) := by
    rw [Int.cast_natAbs]
    exact_mod_cast abs_of_nonneg hnum.le
  rw [hcast, num_eq_mul_den]
  have hden : (1 : ℚ) ≤ (x.den : ℚ) := by
    exact_mod_cast x.den_pos
  nlinarith

lemma one_le_mul_pow_den {x : ℚ} (hx : 0 < x) :
    1 ≤ x * 2 ^ (x.num.natAbs + x.den) := by
  have hnum : 0 < x.num := Rat.num_pos.2 hx
  have hnum1 : (1 : ℚ) ≤ (x.num : ℚ) := by exact_mod_cast hnum
  have hdenpos : (0 : ℚ) < (x.den : ℚ) := by exact_mod_cast x.den_pos
  have hxge : 1 / (x.den : ℚ) ≤ x := by
    rw [div_le_iff₀ hdenpos]
    have hnd := num_eq_mul_den x
    linarith
  have hpow : (x.den : ℚ) ≤ 2 ^ (x.num.natAbs + x.den) := by
    have h1 : (x.den : ℕ) < 2 ^ (x.den : ℕ) := Nat.lt_two_pow x.den
    have h2 : (2 : ℕ) ^ (x.den : ℕ) ≤ 2 ^ (x.num.natAbs + x.den) :=
      Nat.pow_le_pow_right (by norm_num) (by omega)
    exact_mod_cast le_trans (le_of_lt h1) h2
  calc (1:ℚ) = (1 / (x.den : ℚ)) * (x.den : ℚ) := by field_simp
    _ ≤ x * 2 ^ (x.num.natAbs + x.den) := by
        apply mul_le_mul hxge hpow (le_of_lt hdenpos)
        linarith

lemma lt_two_pow_fuel {x : ℚ} (hx : 1 ≤ x) :
    x < 2 ^ (x.num.natAbs + x.den + 1) := by
  have h1 : x ≤ ((x.num.natAbs : ℕ) : ℚ) := rat_le_natAbs_num hx
  have h2 : ((x.num.natAbs : ℕ) : ℚ) < 2 ^ (x.num.natAbs : ℕ) := by
    exact_mod_cast Nat.lt_two_pow x.num.natAbs
  have h3 : (2:ℚ) ^ (x.num.natAbs : ℕ) ≤ 2 ^ (x.num.natAbs + x.den + 1) := by
    apply pow_le_pow_right₀ (by norm_num)
    omega
  linarith

lemma log2floor_spec {x : ℚ} (hx : 0 < x) :
    (2 : ℚ) ^ log2floor x ≤ x ∧ x < (2 : ℚ) ^ (log2floor x + 1) := by
  unfold log2floor
  split_ifs with h1
  · obtain ⟨ha, hb⟩ := findExpUp_spec (x.num.natAbs + x.den) x h1 (lt_two_pow_fuel h1)
    constructor
    · rw [zpow_natCast]
      exact ha
    · have hcast : ((findExpUp (x.num.natAbs + x.den) x : ℤ) + 1)
          = ((findExpUp (x.num.natAbs + x.den) x + 1 : ℕ) : ℤ) := by
        push_cast
        ring
      rw [hcast, zpow_natCast]
      exact hb
  · push_neg at h1
    obtain ⟨ha, hb⟩ := findExpDown_spec (x.num.natAbs + x.den) x hx (one_le_mul_pow_den hx)
    have hb' := hb h1
    set n : ℕ := findExpDown (x.num.natAbs + x.den) x with hn
    have hpow : (0:ℚ) < 2 ^ n := by positivity
    constructor
    · rw [zpow_neg, zpow_natCast, inv_eq_one_div, div_le_iff₀ hpow]
      linarith
    · have hz : (2:ℚ) ^ (-(n : ℤ) + 1) = 2 / 2 ^ n := by
        rw [zpow_add₀ (by norm_num : (2:ℚ) ≠ 0), zpow_neg, zpow_natCast, zpow_one]
        ring
      rw [hz, lt_div_iff₀ hpow]
      linarith

lemma log2floor_mono {x y : ℚ} (hx : 0 < x) (hxy : x ≤ y) :
    log2floor x ≤ log2floor y := by
  by_contra h
  push_neg at h
  have hy : 0 < y := lt_of_lt_of_le hx hxy
  obtain ⟨hs1, _⟩ := log2floor_spec hx
  obtain ⟨_, ht2⟩ := log2floor_spec hy
  have hle : (2:ℚ) ^ (log2floor y + 1) ≤ 2 ^ (log2floor x) :=
    zpow_le_zpow_right₀ (by norm_num) (by omega)
  linarith

/-- Round a nonnegative rational to the nearest IEEE binary64 double
(53-bit significand, round half to even), as an exact rational. -/

lemma roundDouble_eq_of_pos {x : ℚ} (hx : 0 < x) :
    roundDouble x =
      (roundHalfEven (x * 2 ^ (52 - log2floor x)) : ℚ) * 2 ^ (log2floor x - 52) := by
  unfold roundDouble
  rw [if_neg (not_le.2 hx), mulPow2_eq, mulPow2_eq]

lemma roundDouble_nonneg (x : ℚ) : 0 ≤ roundDouble x := by
  by_cases h : x ≤ 0
  · unfold roundDouble
    rw [if_pos h]
  · push_neg at h
    rw [roundDouble_eq_of_pos h]
    have hs : (0:ℚ) ≤ x * 2 ^ (52 - log2floor x) := by positivity
    have h1 : (0:ℤ) ≤ roundHalfEven (x * 2 ^ (52 - log2floor x)) :=
      le_trans (Int.le_floor.2 (by simpa using hs)) (roundHalfEven_ge_floor _)
    have h2 : (0:ℚ) ≤ ((roundHalfEven (x * 2 ^ (52 - log2floor x)) : ℤ) : ℚ) := by
      exact_mod_cast h1
    positivity

lemma roundDouble_le_of_pos {x : ℚ} (hx : 0 < x) :
    roundDouble x ≤ (2:ℚ) ^ (log2floor x + 1) := by
  rw [roundDouble_eq_of_pos hx]
  have hlt : x < (2:ℚ) ^ (log2floor x + 1) := (log2floor_spec hx).2
  have hp1 : (0:ℚ) < (2:ℚ) ^ (52 - log2floor x) := by positivity
  have hp2 : (0:ℚ) < (2:ℚ) ^ (log2floor x - 52) := by positivity
  have h2 : (2:ℚ) ^ (log2floor x + 1) * (2:ℚ) ^ (52 - log2floor x)
      = (((2:ℤ) ^ (53:ℕ) : ℤ) : ℚ) := by
    rw [int_pow2_cast, ← zpow_add₀ (by norm_num : (2:ℚ) ≠ 0)]
    congr 1
    omega
  have hs : x * 2 ^ (52 - log2floor x) ≤ (((2:ℤ) ^ (53:ℕ) : ℤ) : ℚ) := by
    have h1 : x * 2 ^ (52 - log2floor x)
        ≤ (2:ℚ) ^ (log2floor x + 1) * 2 ^ (52 - log2floor x) :=
      mul_le_mul_of_nonneg_right hlt.le hp1.le
    linarith [h2 ▸ h1]
  have hr : roundHalfEven (x * 2 ^ (52 - log2floor x)) ≤ (2:ℤ) ^ (53:ℕ) :=
    roundHalfEven_le_of_le_int hs
  have hrq : ((roundHalfEven (x * 2 ^ (52 - log2floor x)) : ℤ) : ℚ)
      ≤ (((2:ℤ) ^ (53:ℕ) : ℤ) : ℚ) := by
    exact_mod_cast hr
  calc (roundHalfEven (x * 2 ^ (52 - log2floor x)) : ℚ) * 2 ^ (log2floor x - 52)
      ≤ (((2:ℤ) ^ (53:ℕ) : ℤ) : ℚ) * 2 ^ (log2floor x - 52) :=
        mul_le_mul_of_nonneg_right hrq hp2.le
    _ = (2:ℚ) ^ (log2floor x + 1) := by
        rw [int_pow2_cast, ← zpow_add₀ (by norm_num : (2:ℚ) ≠ 0)]
        congr 1
        omega

lemma roundDouble_ge_of_pos {x : ℚ} (hx : 0 < x) :
    (2:ℚ) ^ (log2floor x) ≤ roundDouble x := by
  rw [roundDouble_eq_of_pos hx]
  have hge : (2:ℚ) ^ (log2floor x) ≤ x := (log2floor_spec hx).1
  have hp1 : (0:ℚ) < (2:ℚ) ^ (52 - log2floor x) := by positivity
  have hp2 : (0:ℚ) < (2:ℚ) ^ (log2floor x - 52) := by positivity
  have h2 : (2:ℚ) ^ (log2floor x) * (2:ℚ) ^ (52 - log2floor x)
      = (((2:ℤ) ^ (52:ℕ) : ℤ) : ℚ) := by
    rw [int_pow2_cast, ← zpow_add₀ (by norm_num : (2:ℚ) ≠ 0)]
    congr 1
    omega
  have hs : (((2:ℤ) ^ (52:ℕ) : ℤ) : ℚ) ≤ x * 2 ^ (52 - log2floor x) := by
    have h1 : (2:ℚ) ^ (log2floor x) * 2 ^ (52 - log2floor x)
        ≤ x * 2 ^ (52 - log2floor x) :=
      mul_le_mul_of_nonneg_right hge hp1.le
    linarith [h2 ▸ h1]
  have hr : (2:ℤ) ^ (52:ℕ) ≤ roundHalfEven (x * 2 ^ (52 - log2floor x)) :=
    roundHalfEven_ge_of_int_le hs
  have hrq : (((2:ℤ) ^ (52:ℕ) : ℤ) : ℚ)
      ≤ ((roundHalfEven (x * 2 ^ (52 - log2floor x)) : ℤ) : ℚ) := by
    exact_mod_cast hr
  calc (2:ℚ) ^ (log2floor x)
      = (((2:ℤ) ^ (52:ℕ) : ℤ) : ℚ) * 2 ^ (log2floor x - 52) := by
        rw [int_pow2_cast, ← zpow_add₀ (by norm_num : (2:ℚ) ≠ 0)]
        congr 1
        omega
    _ ≤ (roundHalfEven (x * 2 ^ (52 - log2floor x)) : ℚ) * 2 ^ (log2floor x - 52) :=
        mul_le_mul_of_nonneg_right hrq hp2.le

lemma roundDouble_mono {x y : ℚ} (hxy : x ≤ y) : roundDouble x ≤ roundDouble y := by
  by_cases hx : x ≤ 0
  · rw [show roundDouble x = 0 from by unfold roundDouble; rw [if_pos hx]]
    exact roundDouble_nonneg y
  · push_neg at hx
    have hy : 0 < y := lt_of_lt_of_le hx hxy
    have hexy : log2floor x ≤ log2floor y := log2floor_mono hx hxy
    rcases eq_or_lt_of_le hexy with he | hlt
    · rw [roundDouble_eq_of_pos hx, roundDouble_eq_of_pos hy, ← he]
      have hpow : (0:ℚ) ≤ (2:ℚ) ^ (52 - log2floor x) := by positivity
      have hmono : roundHalfEven (x * 2 ^ (52 - log2floor x)) ≤
          roundHalfEven (y * 2 ^ (52 - log2floor x)) :=
        roundHalfEven_mono (mul_le_mul_of_nonneg_right hxy hpow)
      have hpos : (0:ℚ) ≤ (2:ℚ) ^ (log2floor x - 52) := by positivity
      exact mul_le_mul_of_nonneg_right (by exact_mod_cast hmono) hpos
    · calc roundDouble x ≤ 2 ^ (log2floor x + 1) := roundDouble_le_of_pos hx
        _ ≤ 2 ^ (log2floor y) := zpow_le_zpow_right₀ (by norm_num) (by omega)
        _ ≤ roundDouble y := roundDouble_ge_of_pos hy

/-- `elapsed / 20000`, computably. -/

lemma divBy20000_eq (e : ℕ) : divBy20000 e = (e : ℚ) / 20000 := by
  unfold divBy20000
  rw [Rat.mkRat_eq_div]
  norm_num

lemma mul90_eq (x : ℚ) : mul90 x = x * 90 := by
  unfold mul90
  rw [mkRat_num_mul]
  norm_num

/-! Basic lemmas about traces and the step function. -/

lemma countTerminal_append (a b : List PollEvent) :
    countTerminal (a ++ b) = countTerminal a + countTerminal b := by
  simp [countTerminal, List.filter_append]

lemma countTerminal_cons_false {e : PollEvent} (he : isTerminalNav e = false)
    (es : List PollEvent) : countTerminal (e :: es) = countTerminal es := by
  simp [countTerminal, List.filter_cons, he]

lemma noEventAfterTerminal_append (a b : List PollEvent) (h : countTerminal a = 0) :
    noEventAfterTerminal (a ++ b) = noEventAfterTerminal b := by
  induction a with
  | nil => rfl
  | cons e es ih =>
    cases he : isTerminalNav e with
    | false =>
      have h' : countTerminal es = 0 := by
        simpa [countTerminal, List.filter_cons, he] using h
      simp [noEventAfterTerminal, he, ih h']
    | true => simp [countTerminal, List.filter_cons, he] at h

lemma progressValues_append (a b : List PollEvent) :
    progressValues (a ++ b) = progressValues a ++ progressValues b := by
  induction a with
  | nil => rfl
  | cons e es ih =>
    cases e
    all_goals simp [progressValues, ih]

lemma estimatedProgress_le_90 (e : Nat) : estimatedProgress e ≤ 90 :=
  max_le (min_le_right _ 90) (by norm_num)

lemma estimatedProgress_mono {a b : Nat} (h : a ≤ b) :
    estimatedProgress a ≤ estimatedProgress b := by
  unfold estimatedProgress
  rw [divBy20000_eq, divBy20000_eq, mul90_eq, mul90_eq]
  have h1 : ((a : ℚ)) / 20000 ≤ (b : ℚ) / 20000 := by
    have hab : (a : ℚ) ≤ (b : ℚ) := by exact_mod_cast h
    linarith
  have h2 := roundDouble_mono h1
  have h3 : roundDouble ((a : ℚ) / 20000) * 90 ≤ roundDouble ((b : ℚ) / 20000) * 90 :=
    mul_le_mul_of_nonneg_right h2 (by norm_num)
  have h4 := roundDouble_mono h3
  have h5 := Int.toNat_le_toNat (Int.floor_mono h4)
  exact max_le_max (min_le_min h5 le_rfl) le_rfl

lemma pollStep_timeout {t : Tick} (hme : t.mountedAtEntry = true)
    (h : timeoutMs < t.elapsed) :
    pollStep t = ([.toast timeoutToast, .navigate .scanError], none) := by
  simp [pollStep, hme, h]

lemma pollStep_cont_countTerminal {t : Tick} (h : (pollStep t).2.isSome = true) :
    countTerminal (pollStep t).1 = 0 := by
  obtain ⟨el, me, r, mr, md⟩ := t
  cases r with
  | ok st em =>
    simp only [pollStep] at h ⊢
    split_ifs at h ⊢ <;> simp_all [countTerminal, isTerminalNav, List.filter]
  | err hs =>
    simp only [pollStep] at h ⊢
    split_ifs at h ⊢ <;> simp_all [countTerminal, isTerminalNav, List.filter]

lemma pollStep_none_countTerminal {t : Tick} (hm : fullyMounted t = true)
    (h : (pollStep t).2 = none) : countTerminal (pollStep t).1 = 1 := by
  obtain ⟨el, me, r, mr, md⟩ := t
  simp only [fullyMounted, Bool.and_eq_true] at hm
  obtain ⟨⟨hme, hmr⟩, hmd⟩ := hm
  subst hme; subst hmr; subst hmd
  cases r with
  | ok st em =>
    simp only [pollStep] at h ⊢
    split_ifs at h ⊢ <;> simp_all [countTerminal, isTerminalNav, List.filter]
  | err hs =>
    simp only [pollStep] at h ⊢
    split_ifs at h ⊢ <;> simp_all [countTerminal, isTerminalNav, List.filter]

lemma pollStep_noEventAfterTerminal (t : Tick) :
    noEventAfterTerminal (pollStep t).1 = true := by
  obtain ⟨el, me, r, mr, md⟩ := t
  cases r with
  | ok st em =>
    simp only [pollStep]
    split_ifs <;> simp_all [noEventAfterTerminal, isTerminalNav]
  | err hs =>
    simp only [pollStep]
    split_ifs <;> simp_all [noEventAfterTerminal, isTerminalNav]

lemma pollStep_progressValues (t : Tick) :
    progressValues (pollStep t).1 = [] ∨
    (progressValues (pollStep t).1 = [estimatedProgress t.elapsed] ∧
      (pollStep t).2 = some pollIntervalMs) ∨
    (progressValues (pollStep t).1 = [100] ∧ (pollStep t).2 = none) := by
  obtain ⟨el, me, r, mr, md⟩ := t
  cases r with
  | ok st em =>
    simp only [pollStep]
    split_ifs <;> simp_all [progressValues]
  | err hs =>
    simp only [pollStep]
    split_ifs <;> simp_all [progressValues]

lemma pollStep_setProgress_100 {t : Tick}
    (h : PollEvent.setProgress 100 ∈ (pollStep t).1) :
    ∃ st em, t.result = QueryResult.ok st em ∧ jsToLower st = "completed" := by
  obtain ⟨el, me, r, mr, md⟩ := t
  cases r with
  | ok st em =>
    refine ⟨st, em, rfl, ?_⟩
    have h90 := estimatedProgress_le_90 el
    simp only [pollStep] at h
    split_ifs at h
    all_goals simp_all
    all_goals omega
  | err hs =>
    exfalso
    simp only [pollStep] at h
    split_ifs at h <;> simp_all

lemma elapsedMono_tail {t : Tick} {ts : List Tick}
    (h : elapsedMono (t :: ts) = true) : elapsedMono ts = true := by
  cases ts with
  | nil => rfl
  | cons b rest =>
    simp only [elapsedMono, Bool.and_eq_true] at h
    exact h.2

lemma elapsedMono_head {t u : Tick} {ts : List Tick}
    (h : elapsedMono (t :: ts) = true) (hu : ts.head? = some u) :
    t.elapsed ≤ u.elapsed := by
  cases ts with
  | nil => simp at hu
  | cons b rest =>
    rw [List.head?_cons] at hu
    injection hu with hu
    subst hu
    simp only [elapsedMono, Bool.and_eq_true, decide_eq_true_eq] at h
    exact h.1

lemma elapsedGrows_get (ts : List Tick) :
    ∀ a : Tick, elapsedGrows (a :: ts) = true →
      ∀ i, ∀ h : i < ts.length,
        a.elapsed + pollIntervalMs * (i + 1) ≤ (ts.get ⟨i, h⟩).elapsed := by
  induction ts with
  | nil =>
    intro a _ i h
    simp at h
  | cons b rest ih =>
    intro a hg i h
    simp only [elapsedGrows, Bool.and_eq_true, decide_eq_true_eq] at hg
    obtain ⟨hab, hg'⟩ := hg
    cases i with
    | zero => simpa using hab
    | succ j =>
      have hj : j < rest.length := by simpa using h
      have hrec := ih b hg' j hj
      rw [List.get_cons_succ]
      simp only [pollIntervalMs] at hab hrec ⊢
      omega

lemma exists_timeout_tick {ticks : List Tick} (hg : elapsedGrows ticks = true)
    (hlen : 32 ≤ ticks.length) : ∃ t0 ∈ ticks, timeoutMs < t0.elapsed := by
  cases ticks with
  | nil => simp at hlen
  | cons a ts =>
    have hlen' : 30 < ts.length := by
      simp only [List.length_cons] at hlen
      omega
    have h := elapsedGrows_get ts a hg 30 hlen'
    refine ⟨ts.get ⟨30, hlen'⟩, List.mem_cons_of_mem a (ts.get_mem _ _), ?_⟩
    simp only [pollIntervalMs, timeoutMs] at h ⊢
    omega

lemma runPoll_terminal_once {ticks : List Tick}
    (hm : ∀ t ∈ ticks, fullyMounted t = true)
    (hk : ∃ t0 ∈ ticks, timeoutMs < t0.elapsed) :
    countTerminal (runPoll ticks) = 1 ∧ noEventAfterTerminal (runPoll ticks) = true := by
  induction ticks with
  | nil =>
    obtain ⟨t0, h0, _⟩ := hk
    simp at h0
  | cons t ts ih =>
    have hmt : fullyMounted t = true := hm t (List.mem_cons_self t ts)
    cases hnext : (pollStep t).2 with
    | none =>
      have h1 := pollStep_none_countTerminal hmt hnext
      refine ⟨by simp [runPoll, hnext, h1], ?_⟩
      have h2 := pollStep_noEventAfterTerminal t
      simpa [runPoll, hnext] using h2
    | some d =>
      have h0 : countTerminal (pollStep t).1 = 0 :=
        pollStep_cont_countTerminal (by simp [hnext])
      have hk' : ∃ t0 ∈ ts, timeoutMs < t0.elapsed := by
        obtain ⟨t0, h0m, h0e⟩ := hk
        rcases List.mem_cons.1 h0m with h | h
        · exfalso
          rw [h] at h0e
          have hme : t.mountedAtEntry = true := by
            simp only [fullyMounted, Bool.and_eq_true] at hmt
            exact hmt.1.1
          have hts := pollStep_timeout hme h0e
          rw [hts] at hnext
          simp at hnext
        · exact ⟨t0, h, h0e⟩
      obtain ⟨ihc, ihn⟩ := ih (fun u hu => hm u (List.mem_cons_of_mem t hu)) hk'
      refine ⟨by simp [runPoll, hnext, countTerminal_append, h0, ihc], ?_⟩
      have hrw : runPoll (t :: ts) = (pollStep t).1 ++ runPoll ts := by
        simp [runPoll, hnext]
      rw [hrw, noEventAfterTerminal_append _ _ h0]
      exact ihn

lemma progress_chain {ticks : List Tick} (hmono : elapsedMono ticks = true) :
    ∀ b : Nat, b ≤ 100 →
      (∀ u ∈ ticks.head?, b ≤ estimatedProgress u.elapsed) →
      nonDecreasing (b :: progressValues (runPoll ticks)) = true := by
  induction ticks with
  | nil =>
    intro b _ _
    rfl
  | cons t ts ih =>
    intro b hb100 hhead
    have hbt : b ≤ estimatedProgress t.elapsed := hhead t (by simp)
    have hmono' : elapsedMono ts = true := elapsedMono_tail hmono
    rcases pollStep_progressValues t with hpv | ⟨hpv, hnext⟩ | ⟨hpv, hnext⟩
    · cases hnext2 : (pollStep t).2 with
      | none =>
        have hrw : runPoll (t :: ts) = (pollStep t).1 ++ [] := by
          simp [runPoll, hnext2]
        rw [hrw, List.append_nil, hpv]
        rfl
      | some d =>
        have hrw : runPoll (t :: ts) = (pollStep t).1 ++ runPoll ts := by
          simp [runPoll, hnext2]
        rw [hrw, progressValues_append, hpv, List.nil_append]
        exact ih hmono' b hb100 fun u hu =>
          le_trans hbt (estimatedProgress_mono (elapsedMono_head hmono hu))
    · have hrw : runPoll (t :: ts) = (pollStep t).1 ++ runPoll ts := by
        simp [runPoll, hnext]
      rw [hrw, progressValues_append, hpv]
      have hrec := ih hmono' (estimatedProgress t.elapsed)
        (le_trans (estimatedProgress_le_90 _) (by norm_num))
        (fun u hu => estimatedProgress_mono (elapsedMono_head hmono hu))
      simp only [List.cons_append, List.nil_append, nonDecreasing, Bool.and_eq_true,
        decide_eq_true_eq]
      exact ⟨hbt, hrec⟩
    · have hrw : runPoll (t :: ts) = (pollStep t).1 ++ [] := by
        simp [runPoll, hnext]
      rw [hrw, List.append_nil, hpv]
      simp [nonDecreasing, hb100]

lemma isAuthOnlyScreen_eq_false_iff (sc : Screen) :
    isAuthOnlyScreen sc = false ↔
      (sc ≠ .splash ∧ sc ≠ .onboarding ∧ sc ≠ .login ∧ sc ≠ .signup) := by
  cases sc
  all_goals simp [isAuthOnlyScreen]

lemma isAuthOnlyScreen_eq_true_not {sc : Screen} (h : isAuthOnlyScreen sc = true) :
    ¬(sc ≠ .splash ∧ sc ≠ .onboarding ∧ sc ≠ .login ∧ sc ≠ .signup) := by
  cases sc
  all_goals simp_all [isAuthOnlyScreen]

/-! Claim theorems. -/

/-- C1: on any run of the poll loop in which the component stays mounted,
successive invocations see elapsed times growing by at least the 2000 ms
poll interval, and at least 32 responses are available, exactly one
terminal notification (navigation to `report-result` or `scan-error`) is
emitted, and no event at all — no query, no progress update, no second
terminal notification — follows it. -/
theorem terminal_notification_exactly_once (ticks : List Tick)
    (hm : ∀ t ∈ ticks, fullyMounted t = true)
    (hg : elapsedGrows ticks = true)
    (hlen : 32 ≤ ticks.length) :
    countTerminal (runPoll ticks) = 1 ∧ noEventAfterTerminal (runPoll ticks) = true :=
  runPoll_terminal_once hm (exists_timeout_tick hg hlen)

/-- C1 witness: a fully mounted run of 32 `processing` responses polled
every 2000 ms fires exactly one terminal notification. -/
theorem terminal_notification_exactly_once_witness :
    countTerminal (runPoll ((List.range 32).map fun i =>
      ⟨2000 * i, true, QueryResult.ok "processing" none, true, true⟩)) = 1 :=
  (terminal_notification_exactly_once
    ((List.range 32).map fun i =>
      ⟨2000 * i, true, QueryResult.ok "processing" none, true, true⟩)
    (by decide) (by decide) (by decide)).1

/-- C2: the claim says a cancelled loop never fires a terminal notification
when its in-flight query later resolves, but the fatal branch of the
`catch` in `pollStatus` navigates without consulting `isMounted`: a query
rejecting with HTTP 404 after unmount still fires the terminal
notification, while (for contrast) a status snapshot and a transient
rejection after unmount are correctly suppressed. -/
theorem cancelled_fatal_rejection_still_navigates :
    runPoll [⟨1000, true, QueryResult.err (some 404), false, false⟩]
      = [PollEvent.query, PollEvent.toast fatalToast, PollEvent.navigate Screen.scanError] ∧
    countTerminal (runPoll [⟨1000, true, QueryResult.err (some 404), false, false⟩]) = 1 ∧
    runPoll [⟨1000, true, QueryResult.ok "completed" none, false, false⟩]
      = [PollEvent.query] ∧
    runPoll [⟨1000, true, QueryResult.err none, false, false⟩] = [PollEvent.query] := by
  decide

/-- C3: whenever an invocation starts on a mounted component with more than
60 000 ms elapsed, it fires the timed-out terminal notification without
issuing the query and schedules nothing — regardless of the response the
query would have produced — and conversely any invocation that does issue
its query saw elapsed time at most 60 000 ms. -/
theorem timeout_checked_before_every_query (t : Tick)
    (hme : t.mountedAtEntry = true) (h : timeoutMs < t.elapsed) :
    pollStep t = ([.toast timeoutToast, .navigate .scanError], none) ∧
    ∀ u : Tick, PollEvent.query ∈ (pollStep u).1 → u.elapsed ≤ timeoutMs := by
  refine ⟨pollStep_timeout hme h, ?_⟩
  intro u hq
  by_contra hgt
  push_neg at hgt
  cases hme2 : u.mountedAtEntry with
  | false =>
    rw [show pollStep u = ([], none) from by simp [pollStep, hme2]] at hq
    simp at hq
  | true =>
    rw [pollStep_timeout hme2 hgt] at hq
    simp at hq

/-- C3 witness: at 60 001 ms elapsed the invocation fires the timeout
outcome without querying, even though the pending response was
`processing`. -/
theorem timeout_checked_before_every_query_witness :
    pollStep ⟨60001, true, QueryResult.ok "processing" none, true, true⟩
      = ([PollEvent.toast timeoutToast, PollEvent.navigate Screen.scanError], none) :=
  (timeout_checked_before_every_query
    ⟨60001, true, QueryResult.ok "processing" none, true, true⟩ rfl (by decide)).1

/-- C4 counterexample: the claim that a timed-out run's terminal result
differs from a failed run's is false at these inputs — both a run that
times out at 60 001 ms and a run whose first response is `failed` emit the
same terminal navigation, to `scan-error`. -/
theorem timeout_and_failure_share_terminal_screen :
    (runPoll [⟨60001, true, QueryResult.ok "processing" none, true, true⟩]).filter
        isTerminalNav = [PollEvent.navigate Screen.scanError] ∧
    (runPoll [⟨1000, true, QueryResult.ok "failed" none, true, true⟩]).filter
        isTerminalNav = [PollEvent.navigate Screen.scanError] := by
  decide

/-- C4 amended: the timed-out outcome navigates to the same `scan-error`
screen as the failure outcomes; it is distinguished only by its toast
message, which differs from the default server-failure toast and from the
fatal-error toast. -/
theorem timeout_distinguished_only_by_toast (t : Tick)
    (hme : t.mountedAtEntry = true) (h : timeoutMs < t.elapsed) :
    (pollStep t).1 = [.toast timeoutToast, .navigate .scanError] ∧
    timeoutToast ≠ defaultFailedToast ∧ timeoutToast ≠ fatalToast :=
  ⟨by rw [pollStep_timeout hme h], by decide, by decide⟩

/-- C4 witness: the amended statement at a concrete timed-out tick. -/
theorem timeout_distinguished_only_by_toast_witness :
    (pollStep ⟨60001, true, QueryResult.ok "processing" none, true, true⟩).1
      = [PollEvent.toast timeoutToast, PollEvent.navigate Screen.scanError] :=
  (timeout_distinguished_only_by_toast
    ⟨60001, true, QueryResult.ok "processing" none, true, true⟩ rfl (by decide)).1

set_option maxRecDepth 100000 in
/-- C5 counterexample: the claim that the `processing` branch sets
progress to the exact value `max (min (elapsed * 90 / 20000) 90) 10` is
false at `elapsed = 14000`: the exact formula yields 63 there, but the
IEEE-double evaluation of `Math.floor((14000 / 20000) * 90)` that the code
performs computes `Math.floor(62.99999999999999289…) = 62`, so the loop
sets progress 62. -/
theorem processing_progress_differs_from_exact_formula :
    pollStep ⟨14000, true, QueryResult.ok "processing" none, true, true⟩
      = ([PollEvent.query, PollEvent.setProgress 62], some 2000) ∧
    max (min (14000 * 90 / 20000) 90) 10 = 63 := by
  decide

/-- C5 amended: a mounted invocation at elapsed time at most 60 000 ms
whose query resolves with a `processing` status (case-insensitively) stays
in the polling phase, sets progress to the IEEE-double evaluation of
`Math.max(Math.min(Math.floor((elapsed / 20000) * 90), 90), 10)` — the
division and the multiplication each correctly rounded to the nearest
binary64 double — and schedules the next query after exactly 2000 ms. -/
theorem processing_updates_progress_and_reschedules (t : Tick) (st : String)
    (em : Option String) (hr : t.result = QueryResult.ok st em)
    (hp : jsToLower st = "processing")
    (hme : t.mountedAtEntry = true) (hmr : t.mountedAtResponse = true)
    (hel : t.elapsed ≤ timeoutMs) :
    pollStep t = ([.query, .setProgress
      (max (min (Int.toNat ⌊roundDouble (mul90 (roundDouble (divBy20000 t.elapsed)))⌋) 90)
        10)], some 2000) := by
  have hnl : ¬(timeoutMs < t.elapsed) := Nat.not_lt.2 hel
  obtain ⟨el, me, r, mr, md⟩ := t
  simp only at hr hme hmr hnl ⊢
  subst hr
  subst hme
  subst hmr
  simp [pollStep, hp, hnl, estimatedProgress, pollIntervalMs]

set_option maxRecDepth 100000 in
/-- C5 witness: at 4000 ms elapsed a `processing` response sets progress
per the double-precision formula, which evaluates to 18, and reschedules
after 2000 ms. -/
theorem processing_updates_progress_and_reschedules_witness :
    pollStep ⟨4000, true, QueryResult.ok "processing" none, true, true⟩
      = ([PollEvent.query, PollEvent.setProgress 18], some 2000) := by
  have h := processing_updates_progress_and_reschedules
    ⟨4000, true, QueryResult.ok "processing" none, true, true⟩
    "processing" none rfl (by decide) rfl rfl (by decide)
  rw [h]
  decide

/-- C6: along any run whose invocations observe non-decreasing elapsed
times, the successive `setProgress` observations (starting from the
initial progress value 0) never decrease, and a `setProgress 100` can only
be emitted by an invocation whose query resolved with a `completed`
status. -/
theorem progress_monotone_and_100_only_on_completed (ticks : List Tick)
    (hmono : elapsedMono ticks = true) :
    nonDecreasing (0 :: progressValues (runPoll ticks)) = true ∧
    ∀ t : Tick, PollEvent.setProgress 100 ∈ (pollStep t).1 →
      ∃ st em, t.result = QueryResult.ok st em ∧ jsToLower st = "completed" :=
  ⟨progress_chain hmono 0 (by norm_num) fun _ _ => Nat.zero_le _,
   fun _ h => pollStep_setProgress_100 h⟩

/-- C6 witness: a run with two `processing` responses and then `completed`
yields the non-decreasing progress observations 0, 10, 18, 100. -/
theorem progress_monotone_and_100_only_on_completed_witness :
    nonDecreasing (0 :: progressValues (runPoll
      [⟨1000, true, QueryResult.ok "processing" none, true, true⟩,
       ⟨4000, true, QueryResult.ok "processing" none, true, true⟩,
       ⟨6000, true, QueryResult.ok "completed" none, true, true⟩])) = true :=
  (progress_monotone_and_100_only_on_completed
    [⟨1000, true, QueryResult.ok "processing" none, true, true⟩,
     ⟨4000, true, QueryResult.ok "processing" none, true, true⟩,
     ⟨6000, true, QueryResult.ok "completed" none, true, true⟩] (by decide)).1

/-- C7: a mounted invocation whose query rejects with a transient error
(no 404/400 HTTP status) performs no state transition and emits no
notification — its only event is the query itself — and schedules a retry
after exactly 2000 ms; the retried loop remains subject to the 60 000 ms
ceiling, firing the timed-out outcome on a later invocation past the
deadline. -/
theorem transient_error_retries_until_timeout (t t' : Tick) (hs : Option Nat)
    (hr : t.result = QueryResult.err hs)
    (hfatal : ¬(hs = some 404 ∨ hs = some 400))
    (hme : t.mountedAtEntry = true) (hmr : t.mountedAtResponse = true)
    (hel : t.elapsed ≤ timeoutMs)
    (hme' : t'.mountedAtEntry = true) (hel' : timeoutMs < t'.elapsed) :
    pollStep t = ([.query], some 2000) ∧
    runPoll [t, t'] = [.query, .toast timeoutToast, .navigate .scanError] := by
  have h1 : pollStep t = ([.query], some 2000) := by
    have hnl : ¬(timeoutMs < t.elapsed) := Nat.not_lt.2 hel
    obtain ⟨el, me, r, mr, md⟩ := t
    simp only at hr hme hmr hnl ⊢
    subst hr
    subst hme
    subst hmr
    simp [pollStep, hfatal, hnl, pollIntervalMs]
  refine ⟨h1, ?_⟩
  simp [runPoll, h1, pollStep_timeout hme' hel']

/-- C7 witness: a network failure at 1000 ms is retried silently, and the
loop then times out at 60 001 ms. -/
theorem transient_error_retries_until_timeout_witness :
    pollStep ⟨1000, true, QueryResult.err none, true, true⟩
      = ([PollEvent.query], some 2000) :=
  (transient_error_retries_until_timeout
    ⟨1000, true, QueryResult.err none, true, true⟩
    ⟨60001, true, QueryResult.ok "processing" none, true, true⟩
    none rfl (by decide) rfl rfl (by decide) rfl (by decide)).1

/-- C8: an invocation whose query rejects with HTTP status 404 or 400
transitions directly to the failed terminal outcome (fatal toast plus
navigation to `scan-error`), and no further query is ever issued on that
run, whatever responses would have followed. -/
theorem fatal_error_fails_without_retry (t : Tick) (hs : Option Nat)
    (hr : t.result = QueryResult.err hs) (hfatal : hs = some 404 ∨ hs = some 400)
    (hme : t.mountedAtEntry = true) (hel : t.elapsed ≤ timeoutMs)
    (rest : List Tick) :
    runPoll (t :: rest) = [.query, .toast fatalToast, .navigate .scanError] ∧
    countQueries (runPoll (t :: rest)) = 1 := by
  have h1 : pollStep t = ([.query, .toast fatalToast, .navigate .scanError], none) := by
    have hnl : ¬(timeoutMs < t.elapsed) := Nat.not_lt.2 hel
    obtain ⟨el, me, r, mr, md⟩ := t
    simp only at hr hme hnl ⊢
    subst hr
    subst hme
    simp [pollStep, hfatal, hnl]
  have hrw : runPoll (t :: rest) = [.query, .toast fatalToast, .navigate .scanError] := by
    simp [runPoll, h1]
  rw [hrw]
  exact ⟨rfl, by decide⟩

/-- C8 witness: a 404 rejection at 1000 ms fails immediately and issues no
second query even though three more `processing` responses were
available. -/
theorem fatal_error_fails_without_retry_witness :
    runPoll (⟨1000, true, QueryResult.err (some 404), true, true⟩ ::
      [⟨3000, true, QueryResult.ok "processing" none, true, true⟩,
       ⟨5000, true, QueryResult.ok "processing" none, true, true⟩,
       ⟨7000, true, QueryResult.ok "processing" none, true, true⟩])
      = [PollEvent.query, PollEvent.toast fatalToast, PollEvent.navigate Screen.scanError] :=
  (fatal_error_fails_without_retry
    ⟨1000, true, QueryResult.err (some 404), true, true⟩ (some 404) rfl (Or.inl rfl)
    rfl (by decide)
    [⟨3000, true, QueryResult.ok "processing" none, true, true⟩,
     ⟨5000, true, QueryResult.ok "processing" none, true, true⟩,
     ⟨7000, true, QueryResult.ok "processing" none, true, true⟩]).1

/-- C9: on start with a valid session the saved screen and tab are
restored from durable storage unless the saved screen is auth-only (then
`home` is chosen); with no valid session the app routes to `onboarding`;
and the sign-out handler clears both durable keys and routes to
`onboarding`. -/
theorem session_restore_and_signout_routing (hv : Bool) (st : LocalStorage)
    (s0 : AppState) :
    (∀ sc, hv = true → st.savedScreen = some sc → isAuthOnlyScreen sc = false →
      initializeAuth hv st s0 =
        { s0 with isLoggedIn := true, currentScreen := sc,
                  activeTab := st.savedTab.getD s0.activeTab }) ∧
    (hv = true →
      (st.savedScreen = none ∨
        ∃ sc, st.savedScreen = some sc ∧ isAuthOnlyScreen sc = true) →
      (initializeAuth hv st s0).currentScreen = Screen.home ∧
      (initializeAuth hv st s0).isLoggedIn = true) ∧
    (hv = false → initializeAuth hv st s0 =
      { s0 with isLoggedIn := false, currentScreen := Screen.onboarding }) ∧
    (∀ s : AppState, handleSignedOut s st =
      ({ s with isLoggedIn := false, currentScreen := Screen.onboarding,
                activeTab := Tab.home },
       ⟨none, none⟩)) := by
  refine ⟨?_, ?_, ?_, fun s => rfl⟩
  · intro sc h1 h2 h3
    subst h1
    have hcond := (isAuthOnlyScreen_eq_false_iff sc).1 h3
    simp [initializeAuth, h2, hcond]
  · intro h1 hd
    subst h1
    rcases hd with hd | ⟨sc, hsc, hauth⟩
    · simp [initializeAuth, hd]
    · have := isAuthOnlyScreen_eq_true_not hauth
      simp [initializeAuth, hsc, this]
  · intro h1
    subst h1
    simp [initializeAuth]

/-- C9 witness: a valid session with saved screen `history` and saved tab
`history` restores exactly those. -/
theorem session_restore_and_signout_routing_witness :
    initializeAuth true ⟨some Screen.history, some Tab.history⟩
        ⟨false, Screen.splash, Tab.home⟩
      = ⟨true, Screen.history, Tab.history⟩ :=
  (session_restore_and_signout_routing true ⟨some Screen.history, some Tab.history⟩
    ⟨false, Screen.splash, Tab.home⟩).1 Screen.history rfl rfl (by decide)

/-- C10: the persistence effect writes the durable screen key only while
logged in and only with a non-auth-only screen — any write stores the
current screen under those conditions, otherwise the key is left
untouched — so a durable store that never named an auth-only screen still
does not after the effect runs, and the sign-out handler leaves the key
cleared. -/
theorem saved_screen_never_auth_only (s : AppState) (st : LocalStorage) :
    ((persistState s st).savedScreen = st.savedScreen ∨
      (s.isLoggedIn = true ∧ isAuthOnlyScreen s.currentScreen = false ∧
        (persistState s st).savedScreen = some s.currentScreen)) ∧
    ((∀ sc, st.savedScreen = some sc → isAuthOnlyScreen sc = false) →
      ∀ sc, (persistState s st).savedScreen = some sc → isAuthOnlyScreen sc = false) ∧
    (∀ s2 : AppState, ((handleSignedOut s2 st).2).savedScreen = none) := by
  have hmain :
      (persistState s st).savedScreen = st.savedScreen ∨
        (s.isLoggedIn = true ∧ isAuthOnlyScreen s.currentScreen = false ∧
          (persistState s st).savedScreen = some s.currentScreen) := by
    by_cases hc : s.isLoggedIn = true ∧ s.currentScreen ≠ .splash ∧
        s.currentScreen ≠ .onboarding ∧ s.currentScreen ≠ .login ∧
        s.currentScreen ≠ .signup
    · right
      refine ⟨hc.1, (isAuthOnlyScreen_eq_false_iff _).2 hc.2, ?_⟩
      by_cases hl : s.isLoggedIn = true
      all_goals simp [persistState, hc, hl]
    · left
      by_cases hl : s.isLoggedIn = true
      · have hsc : ¬(s.currentScreen ≠ Screen.splash ∧ s.currentScreen ≠ Screen.onboarding ∧
            s.currentScreen ≠ Screen.login ∧ s.currentScreen ≠ Screen.signup) :=
          fun h => hc ⟨hl, h⟩
        simp [persistState, hl, hsc]
      · simp [persistState, hl]
  refine ⟨hmain, ?_, fun s2 => rfl⟩
  intro hinv sc hsc
  rcases hmain with hsame | ⟨_, hauth, hwrite⟩
  · exact hinv sc (hsame ▸ hsc)
  · rw [hwrite] at hsc
    injection hsc with hsc
    rw [← hsc]
    exact hauth

/-- C10 witness: persisting while logged in on the `profile` screen stores
`profile`, which is not auth-only. -/
theorem saved_screen_never_auth_only_witness :
    (persistState ⟨true, Screen.profile, Tab.profile⟩ ⟨none, none⟩).savedScreen
        = some Screen.profile →
      isAuthOnlyScreen Screen.profile = false :=
  (saved_screen_never_auth_only ⟨true, Screen.profile, Tab.profile⟩ ⟨none, none⟩).2.1
    (fun sc h => by simp at h) Screen.profile

end Mediguide
